import Mathlib

/-!
# Verification of the live voice-session engine (`src/hooks/useLiveSession.ts`)

Shallow embedding of the session engine of this repository. The heart of the
code is the `onmessage` callback of the channel: it handles, in order,

1. an inbound audio payload (clamp `nextStartTime` to `max(nextStart, now)`,
   decode, schedule a buffer source at `nextStart`, advance `nextStart` by the
   chunk's duration, register the source in the active set),
2. the interruption flag (stop every active source — the `try {stop()} catch`
   in the source makes a stop of an already-finished source a swallowed no-op —
   clear the set, reset `nextStartTime` to 0),
3. transcription fragments (`outputTranscription` takes precedence over
   `inputTranscription` via `else if`; the fragment is appended to the role's
   buffer and one partial Message with the whole buffer is emitted, its id
   being `Date.now().toString() + role`),
4. the turn-complete flag (each non-empty buffer emits one final Message and
   is reset; an empty buffer emits nothing).

Because the callback is an `async` function that `await`s the decode with no
surrounding try/catch, a decode failure rejects the callback's promise: the
REMAINDER of the handler for that event is skipped, no error hook is invoked
from `onmessage`, and the session is not torn down.

External effects (scheduling a source, stopping a source, emitting a Message
through `onMessage`, reporting through `onError`) are modelled as an emitted
event trace `List OutEvent`. Clock reads (`ctx.currentTime`, `Date.now()`)
and the decode result for the event's payload are inputs of the handler.
Times and durations are embedded as rationals.
-/

namespace LiveSession

/-- The fields of an inbound `LiveServerMessage.serverContent` the handler
inspects: `modelTurn.parts[0].inlineData.data` (the encoded audio payload,
opaque here), `interrupted`, `outputTranscription.text`,
`inputTranscription.text`, `turnComplete`. -/
structure InboundMsg where
  audioData : Option Nat
  interrupted : Bool
  outputTranscription : Option String
  inputTranscription : Option String
  turnComplete : Bool
deriving DecidableEq, Repr

/-- The mutable refs of the hook that `onmessage` touches:
`nextStartTimeRef`, `audioSourcesRef` (a JS `Set`, embedded as the list of
source ids in insertion order), `currentInputTranscription`,
`currentOutputTranscription`. -/
structure EngineState where
  nextStartTime : ℚ
  audioSources : List Nat
  currentInputTranscription : String
  currentOutputTranscription : String
deriving DecidableEq, Repr

/-- Observable effects of one handler run. `errorReported` models a call of
the `onError` hook; the `onmessage` handler of the source never performs one
(only the channel's `onerror` callback and `connect`'s catch block do). -/
inductive OutEvent where
  | scheduled (sourceId : Nat) (startTime duration : ℚ)
  | stopped (sourceId : Nat)
  | message (id : String) (role : String) (text : String) (partialFlag : Bool)
  | errorReported
deriving DecidableEq, Repr

/-- Interruption handling (`if (message.serverContent?.interrupted)`): stop
every source of the active set (insertion order, as `Set.forEach` iterates),
clear the set, reset `nextStartTimeRef.current` to `0`. -/
def interruptStep (st : EngineState) : EngineState × List OutEvent :=
  ({ st with audioSources := [], nextStartTime := 0 },
   st.audioSources.map OutEvent.stopped)

/-- Transcription handling: `if (outputTranscription) … else if
(inputTranscription) …` — append the fragment to the role's buffer and emit a
partial Message whose text is the whole buffer and whose id is
`Date.now().toString() + role`. -/
def transcriptionStep (dateNow : Nat) (st : EngineState) (msg : InboundMsg) :
    EngineState × List OutEvent :=
  match msg.outputTranscription with
  | some txt =>
      let buf := st.currentOutputTranscription ++ txt
      ({ st with currentOutputTranscription := buf },
       [OutEvent.message (toString dateNow ++ "model") "model" buf true])
  | none =>
      match msg.inputTranscription with
      | some txt =>
          let buf := st.currentInputTranscription ++ txt
          ({ st with currentInputTranscription := buf },
           [OutEvent.message (toString dateNow ++ "user") "user" buf true])
      | none => (st, [])

/-- Turn-complete handling: a JS truthiness test `if (current)` keeps an empty
buffer silent; a non-empty buffer emits one final Message and is reset. The
user buffer is flushed before the model buffer, as in the source. -/
def turnCompleteStep (dateNow : Nat) (st : EngineState) :
    EngineState × List OutEvent :=
  let userEvs :=
    if st.currentInputTranscription ≠ "" then
      [OutEvent.message (toString dateNow ++ "user_final") "user"
        st.currentInputTranscription false]
    else []
  let st1 :=
    if st.currentInputTranscription ≠ "" then
      { st with currentInputTranscription := "" }
    else st
  let modelEvs :=
    if st1.currentOutputTranscription ≠ "" then
      [OutEvent.message (toString dateNow ++ "model_final") "model"
        st1.currentOutputTranscription false]
    else []
  let st2 :=
    if st1.currentOutputTranscription ≠ "" then
      { st1 with currentOutputTranscription := "" }
    else st1
  (st2, userEvs ++ modelEvs)

/-- The part of `onmessage` that runs after the audio-payload block. -/
def handleRest (dateNow : Nat) (st : EngineState) (msg : InboundMsg) :
    EngineState × List OutEvent :=
  let p1 := if msg.interrupted then interruptStep st else (st, [])
  let p2 := transcriptionStep dateNow p1.1 msg
  let p3 :=
    if msg.turnComplete then turnCompleteStep dateNow p2.1 else (p2.1, [])
  (p3.1, p1.2 ++ p2.2 ++ p3.2)

/-- One run of the `onmessage` callback. `now` is `ctx.currentTime`,
`dateNow` the value every `Date.now()` call of this run reads, `srcId` the
identity of the buffer source created for an audio payload, and `decoded` the
outcome of `await decodeAudioData(...)` for this event's payload (`none` =
the promise rejected). On a payload the code first clamps
`nextStartTimeRef.current` to `max(nextStart, now)`, then awaits the decode;
a rejection skips the whole rest of the handler (no try/catch, no `onError`
call). On success the source is scheduled at `nextStart`, `nextStart` is
advanced by the chunk's duration and the source joins the active set. -/
def handleMessage (now : ℚ) (dateNow : Nat) (srcId : Nat)
    (decoded : Option ℚ) (st : EngineState) (msg : InboundMsg) :
    EngineState × List OutEvent :=
  match msg.audioData with
  | some _ =>
      let st1 := { st with nextStartTime := max st.nextStartTime now }
      match decoded with
      | none => (st1, [])
      | some dur =>
          let start := st1.nextStartTime
          let st2 := { st1 with
            nextStartTime := start + dur,
            audioSources := st1.audioSources ++ [srcId] }
          let rest := handleRest dateNow st2 msg
          (rest.1, OutEvent.scheduled srcId start dur :: rest.2)
  | none => handleRest dateNow st msg

/-- The inputs one `onmessage` run reads from its environment, together with
the inbound message itself. -/
structure MsgInput where
  now : ℚ
  dateNow : Nat
  srcId : Nat
  decoded : Option ℚ
  msg : InboundMsg
deriving DecidableEq, Repr

/-- A sequence of `onmessage` runs, threading the engine state and
concatenating the event traces. -/
def runMessages : EngineState → List MsgInput → EngineState × List OutEvent
  | st, [] => (st, [])
  | st, i :: rest =>
      let r := handleMessage i.now i.dateNow i.srcId i.decoded st i.msg
      let r2 := runMessages r.1 rest
      (r2.1, r.2 ++ r2.2)

/-- An inbound event carrying only an audio payload. -/
def audioOnlyMsg : InboundMsg :=
  { audioData := some 0, interrupted := false, outputTranscription := none,
    inputTranscription := none, turnComplete := false }

/-- An inbound event carrying only the interruption signal. -/
def interruptMsg : InboundMsg :=
  { audioData := none, interrupted := true, outputTranscription := none,
    inputTranscription := none, turnComplete := false }

/-- An inbound event carrying one model transcription fragment. -/
def modelFragmentMsg (txt : String) : InboundMsg :=
  { audioData := none, interrupted := false, outputTranscription := some txt,
    inputTranscription := none, turnComplete := false }

/-- An inbound event carrying one user transcription fragment. -/
def userFragmentMsg (txt : String) : InboundMsg :=
  { audioData := none, interrupted := false, outputTranscription := none,
    inputTranscription := some txt, turnComplete := false }

/-- An inbound event carrying only the turn-complete signal. -/
def turnCompleteMsg : InboundMsg :=
  { audioData := none, interrupted := false, outputTranscription := none,
    inputTranscription := none, turnComplete := true }

/-- Handler inputs for a successfully decoded audio chunk: arrival time
`nd.1`, decoded duration `nd.2`. -/
def audioInput (nd : ℚ × ℚ) : MsgInput :=
  { now := nd.1, dateNow := 0, srcId := 0, decoded := some nd.2,
    msg := audioOnlyMsg }

/-- Handler inputs for one model transcription fragment at clock reading
`dateNow`. -/
def fragmentInput (dateNow : Nat) (txt : String) : MsgInput :=
  { now := 0, dateNow := dateNow, srcId := 0, decoded := none,
    msg := modelFragmentMsg txt }

/-- The refs as initialised by the hook: `nextStartTimeRef = 0`, empty source
set, empty transcription buffers. -/
def initialEngineState : EngineState :=
  { nextStartTime := 0, audioSources := [], currentInputTranscription := "",
    currentOutputTranscription := "" }

/-- The (start, duration) pairs the engine assigns to a run of decoded audio
chunks `(now, duration)`: each start is `max nextStart now` and `nextStart`
then advances by the duration. -/
def schedStarts (ns : ℚ) : List (ℚ × ℚ) → List (ℚ × ℚ)
  | [] => []
  | nd :: rest =>
      let start := max ns nd.1
      (start, nd.2) :: schedStarts (start + nd.2) rest

/-- The ids of the Messages handed to `onMessage` within an event trace, in
emission order. -/
def messageIds (evs : List OutEvent) : List String :=
  evs.filterMap fun e =>
    match e with
    | OutEvent.message i _ _ _ => some i
    | _ => none

/-- The `onMessage` calls within an event trace, in emission order. -/
def messageEvents (evs : List OutEvent) : List OutEvent :=
  evs.filter fun e =>
    match e with
    | OutEvent.message _ _ _ _ => true
    | _ => false

theorem transcriptionStep_preserves (dn : Nat) (st : EngineState)
    (m : InboundMsg) :
    (transcriptionStep dn st m).1.audioSources = st.audioSources ∧
    (transcriptionStep dn st m).1.nextStartTime = st.nextStartTime := by
  rcases m with ⟨a, i, o, it, t⟩
  cases o <;> cases it <;> simp [transcriptionStep]

theorem turnCompleteStep_preserves (dn : Nat) (st : EngineState) :
    (turnCompleteStep dn st).1.audioSources = st.audioSources ∧
    (turnCompleteStep dn st).1.nextStartTime = st.nextStartTime := by
  simp only [turnCompleteStep]
  split_ifs <;> simp

theorem handleRest_interrupted (dn : Nat) (st : EngineState) (m : InboundMsg)
    (hi : m.interrupted = true) :
    (handleRest dn st m).1.audioSources = [] ∧
    (handleRest dn st m).1.nextStartTime = 0 ∧
    ∃ tail, (handleRest dn st m).2 =
      st.audioSources.map OutEvent.stopped ++ tail := by
  have hts := transcriptionStep_preserves dn (interruptStep st).1 m
  have htc :=
    turnCompleteStep_preserves dn (transcriptionStep dn (interruptStep st).1 m).1
  simp only [handleRest, hi, if_true]
  cases hm : m.turnComplete <;> simp_all [interruptStep]

/-- C2: after an event that signals interruption (and carries no audio
payload, as interruption events do), every source of the active set has been
stopped (the stop of an already-finished source is swallowed by the source's
try/catch), the set is empty, `nextStartTime` is 0, and the start time a next
audio chunk would be assigned, `max nextStartTime now`, equals `now` for any
current output-clock time `now ≥ 0`. -/
theorem interruption_clears_queue (st : EngineState) (now : ℚ)
    (dateNow srcId : Nat) (decoded : Option ℚ) (msg : InboundMsg)
    (ha : msg.audioData = none) (hi : msg.interrupted = true) :
    (handleMessage now dateNow srcId decoded st msg).1.audioSources = [] ∧
    (handleMessage now dateNow srcId decoded st msg).1.nextStartTime = 0 ∧
    (∃ tail, (handleMessage now dateNow srcId decoded st msg).2 =
        st.audioSources.map OutEvent.stopped ++ tail) ∧
    ∀ now2 : ℚ, 0 ≤ now2 →
      max (handleMessage now dateNow srcId decoded st msg).1.nextStartTime now2
        = now2 := by
  have h := handleRest_interrupted dateNow st msg hi
  have hm : handleMessage now dateNow srcId decoded st msg =
      handleRest dateNow st msg := by
    simp [handleMessage, ha]
  rw [hm]
  refine ⟨h.1, h.2.1, h.2.2, ?_⟩
  intro now2 h2
  rw [h.2.1]
  exact max_eq_right h2

theorem interruption_clears_queue_witness :
    interruptMsg.audioData = none ∧ interruptMsg.interrupted = true ∧
    ((handleMessage 7 0 0 none
        { nextStartTime := 9, audioSources := [3, 4],
          currentInputTranscription := "", currentOutputTranscription := "" }
        interruptMsg).1.audioSources = [] ∧
     (handleMessage 7 0 0 none
        { nextStartTime := 9, audioSources := [3, 4],
          currentInputTranscription := "", currentOutputTranscription := "" }
        interruptMsg).1.nextStartTime = 0 ∧
     (∃ tail, (handleMessage 7 0 0 none
        { nextStartTime := 9, audioSources := [3, 4],
          currentInputTranscription := "", currentOutputTranscription := "" }
        interruptMsg).2 =
        [3, 4].map OutEvent.stopped ++ tail) ∧
     ∀ now2 : ℚ, 0 ≤ now2 →
       max (handleMessage 7 0 0 none
        { nextStartTime := 9, audioSources := [3, 4],
          currentInputTranscription := "", currentOutputTranscription := "" }
        interruptMsg).1.nextStartTime now2 = now2) :=
  ⟨rfl, rfl,
   interruption_clears_queue
     { nextStartTime := 9, audioSources := [3, 4],
       currentInputTranscription := "", currentOutputTranscription := "" }
     7 0 0 none interruptMsg rfl rfl⟩

/-- C3: the fragment sequence `["ami", " bhalo", " achi"]` for role `model`
followed by one turn-complete yields exactly three partial Messages with the
accumulated texts and one final Message, the model buffer empty afterwards;
and in general a model fragment appends to the model buffer and emits exactly
one partial Message carrying the whole buffer. -/
theorem transcript_finalization :
    (runMessages initialEngineState
      [fragmentInput 1 "ami", fragmentInput 2 " bhalo", fragmentInput 3 " achi",
       { now := 0, dateNow := 4, srcId := 0, decoded := none,
         msg := turnCompleteMsg }]) =
      ({ nextStartTime := 0, audioSources := [],
         currentInputTranscription := "", currentOutputTranscription := "" },
       [OutEvent.message "1model" "model" "ami" true,
        OutEvent.message "2model" "model" "ami bhalo" true,
        OutEvent.message "3model" "model" "ami bhalo achi" true,
        OutEvent.message "4model_final" "model" "ami bhalo achi" false]) ∧
    ∀ (st : EngineState) (dn : Nat) (now : ℚ) (sid : Nat) (txt : String),
      handleMessage now dn sid none st (modelFragmentMsg txt) =
        ({ st with currentOutputTranscription :=
             st.currentOutputTranscription ++ txt },
         [OutEvent.message (toString dn ++ "model") "model"
            (st.currentOutputTranscription ++ txt) true]) := by
  constructor
  · rfl
  · intro st dn now sid txt
    rcases st with ⟨ns, srcs, ib, ob⟩
    simp [handleMessage, modelFragmentMsg, handleRest, transcriptionStep]

/-- C7: at a turn-complete event each role with a non-empty buffer emits one
final Message and is reset, and a role with an empty buffer emits nothing
(with both empty, nothing at all is emitted); the resulting state always has
both buffers empty. -/
theorem turn_complete_empty_buffer_silent (st : EngineState) (dn : Nat)
    (now : ℚ) (sid : Nat) :
    handleMessage now dn sid none st turnCompleteMsg =
      ({ st with currentInputTranscription := "",
                 currentOutputTranscription := "" },
       (if st.currentInputTranscription ≠ "" then
          [OutEvent.message (toString dn ++ "user_final") "user"
            st.currentInputTranscription false] else []) ++
       (if st.currentOutputTranscription ≠ "" then
          [OutEvent.message (toString dn ++ "model_final") "model"
            st.currentOutputTranscription false] else [])) := by
  rcases st with ⟨ns, srcs, ib, ob⟩
  simp only [handleMessage, turnCompleteMsg, handleRest, transcriptionStep,
    turnCompleteStep]
  split_ifs <;> simp_all

/-- C9 (counterexample): two model fragments handled with the same
`Date.now()` reading (5 ms) produce two distinct Messages with the SAME id
`"5model"`, so the emitted ids are not pairwise distinct. -/
theorem message_id_collision :
    messageIds (runMessages initialEngineState
      [fragmentInput 5 "ami", fragmentInput 5 " bhalo"]).2 =
      ["5model", "5model"] ∧
    ¬ (messageIds (runMessages initialEngineState
      [fragmentInput 5 "ami", fragmentInput 5 " bhalo"]).2).Nodup := by
  decide

/-- C9 (amended): exactly one `onMessage` call is made per emitted partial or
final unit, and each Message id is the `Date.now()` reading concatenated with
a role/kind tag (`model`, `user`, `model_final`, `user_final`); ids are not
globally unique across a session — messages of the same role and kind
emitted within the same clock millisecond share an id. -/
theorem message_emission_per_unit (st : EngineState) (dn : Nat) (now : ℚ)
    (sid : Nat) (txt : String) :
    messageIds (handleMessage now dn sid none st (modelFragmentMsg txt)).2 =
      [toString dn ++ "model"] ∧
    messageIds (handleMessage now dn sid none st (userFragmentMsg txt)).2 =
      [toString dn ++ "user"] ∧
    messageIds (handleMessage now dn sid none st turnCompleteMsg).2 =
      (if st.currentInputTranscription ≠ "" then [toString dn ++ "user_final"]
       else []) ++
      (if st.currentOutputTranscription ≠ "" then [toString dn ++ "model_final"]
       else []) := by
  rcases st with ⟨ns, srcs, ib, ob⟩
  refine ⟨?_, ?_, ?_⟩
  · simp [handleMessage, modelFragmentMsg, handleRest, transcriptionStep,
      messageIds]
  · simp [handleMessage, userFragmentMsg, handleRest, transcriptionStep,
      messageIds]
  · simp only [handleMessage, turnCompleteMsg, handleRest, transcriptionStep,
      turnCompleteStep]
    split_ifs <;> simp_all [messageIds]

theorem handleMessage_audio (now dur : ℚ) (dn sid : Nat) (st : EngineState) :
    handleMessage now dn sid (some dur) st audioOnlyMsg =
      ({ st with nextStartTime := max st.nextStartTime now + dur,
                 audioSources := st.audioSources ++ [sid] },
       [OutEvent.scheduled sid (max st.nextStartTime now) dur]) := by
  rcases st with ⟨ns, srcs, ib, ob⟩
  simp [handleMessage, audioOnlyMsg, handleRest, transcriptionStep]

theorem runMessages_audio (l : List (ℚ × ℚ)) (st : EngineState) :
    (runMessages st (l.map audioInput)).2 =
      (schedStarts st.nextStartTime l).map
        fun sd => OutEvent.scheduled 0 sd.1 sd.2 := by
  induction l generalizing st with
  | nil => rfl
  | cons nd rest ih =>
      simp only [List.map_cons, runMessages, audioInput, handleMessage_audio,
        schedStarts]
      rw [ih]
      simp

theorem schedStarts_head_le (ns : ℚ) (l : List (ℚ × ℚ)) :
    ∀ x ∈ (schedStarts ns l).head?, ns ≤ x.1 := by
  cases l with
  | nil => simp [schedStarts]
  | cons nd rest =>
      simp only [schedStarts, List.head?_cons, Option.mem_def,
        Option.some.injEq]
      rintro x rfl
      exact le_max_left _ _

theorem schedStarts_chain (ns : ℚ) (l : List (ℚ × ℚ)) :
    List.Chain' (fun a b : ℚ × ℚ => a.1 + a.2 ≤ b.1) (schedStarts ns l) := by
  induction l generalizing ns with
  | nil => simp [schedStarts]
  | cons nd rest ih =>
      rw [schedStarts, List.chain'_cons']
      exact ⟨fun b hb => schedStarts_head_le _ _ b hb, ih _⟩

/-- C1: for a run of inbound audio-payload events (arrival times and decoded
durations `l`, no interruption in between), the scheduled events are exactly
those given by the recurrence `start = max nextStart now`,
`nextStart ← start + duration`, and consecutive scheduled chunks satisfy
`start (i-1) + duration (i-1) ≤ start i`. -/
theorem playback_schedule_monotone (st : EngineState) (l : List (ℚ × ℚ)) :
    (runMessages st (l.map audioInput)).2 =
      (schedStarts st.nextStartTime l).map
        (fun sd => OutEvent.scheduled 0 sd.1 sd.2) ∧
    List.Chain' (fun a b : ℚ × ℚ => a.1 + a.2 ≤ b.1)
      (schedStarts st.nextStartTime l) :=
  ⟨runMessages_audio l st, schedStarts_chain st.nextStartTime l⟩

/-- C6 (counterexample): an audio payload whose decode fails, arriving at
output-clock time 5 with `nextStartTime = 0`, leaves `nextStartTime = 5`
(the claim says the failed chunk leaves it unchanged) and emits NO events:
in particular no `errorReported` (the claim says the failure is reported via
the error hook; the `onmessage` handler of the source has no try/catch around
the decode and never calls `onError`). -/
theorem decode_failure_counterexample :
    initialEngineState.nextStartTime = 0 ∧
    (handleMessage 5 0 0 none initialEngineState audioOnlyMsg).1.nextStartTime
      = 5 ∧
    (handleMessage 5 0 0 none initialEngineState audioOnlyMsg).2 = [] ∧
    OutEvent.errorReported ∉
      (handleMessage 5 0 0 none initialEngineState audioOnlyMsg).2 := by
  refine ⟨rfl, by decide, rfl, ?_⟩
  intro h
  simp [handleMessage, audioOnlyMsg, initialEngineState] at h

/-- C6 (amended): on a decode failure the chunk is dropped without teardown —
no source is scheduled or added, the transcript buffers are untouched, no
event (in particular no error report and no Message) is emitted, and
subsequent events are processed normally; however no error hook is invoked,
the rest of the handling of that same event is skipped (the `await` rejects
with no try/catch), and `nextStartTime` has already been clamped to
`max nextStartTime now` before the decode. -/
theorem decode_failure_drops_chunk (st : EngineState) (now : ℚ)
    (dn sid p : Nat) (msg : InboundMsg) (ha : msg.audioData = some p)
    (rest : List MsgInput) :
    handleMessage now dn sid none st msg =
      ({ st with nextStartTime := max st.nextStartTime now }, []) ∧
    runMessages st
      ({ now := now, dateNow := dn, srcId := sid, decoded := none,
         msg := msg } :: rest) =
      runMessages { st with nextStartTime := max st.nextStartTime now }
        rest := by
  have h1 : handleMessage now dn sid none st msg =
      ({ st with nextStartTime := max st.nextStartTime now }, []) := by
    simp [handleMessage, ha]
  refine ⟨h1, ?_⟩
  simp only [runMessages, h1, List.nil_append]

theorem decode_failure_drops_chunk_witness :
    audioOnlyMsg.audioData = some 0 ∧
    (handleMessage 5 0 0 none initialEngineState audioOnlyMsg =
       ({ initialEngineState with
            nextStartTime := max initialEngineState.nextStartTime 5 }, []) ∧
     runMessages initialEngineState
       [{ now := 5, dateNow := 0, srcId := 0, decoded := none,
          msg := audioOnlyMsg }] =
       runMessages
         { initialEngineState with
             nextStartTime := max initialEngineState.nextStartTime 5 } []) :=
  ⟨rfl, decode_failure_drops_chunk initialEngineState 5 0 0 0 audioOnlyMsg
    rfl []⟩

theorem messageEvents_append (a b : List OutEvent) :
    messageEvents (a ++ b) = messageEvents a ++ messageEvents b := by
  simp only [messageEvents]
  exact List.filter_append a b

theorem messageEvents_stopped (srcs : List Nat) :
    messageEvents (srcs.map OutEvent.stopped) = [] := by
  induction srcs with
  | nil => rfl
  | cons s rest ih => simp [messageEvents] at ih ⊢

theorem messageEvents_scheduled_cons (sid : Nat) (s d : ℚ)
    (evs : List OutEvent) :
    messageEvents (OutEvent.scheduled sid s d :: evs) = messageEvents evs :=
  by simp [messageEvents]

theorem handleRest_buffers_congr (dn : Nat) (st st' : EngineState)
    (m : InboundMsg)
    (hin : st.currentInputTranscription = st'.currentInputTranscription)
    (hout : st.currentOutputTranscription = st'.currentOutputTranscription) :
    messageEvents (handleRest dn st m).2 =
      messageEvents (handleRest dn st' m).2 ∧
    (handleRest dn st m).1.currentInputTranscription =
      (handleRest dn st' m).1.currentInputTranscription ∧
    (handleRest dn st m).1.currentOutputTranscription =
      (handleRest dn st' m).1.currentOutputTranscription := by
  rcases st with ⟨ns, srcs, ib, ob⟩
  rcases st' with ⟨ns', srcs', ib', ob'⟩
  simp only [EngineState.mk.injEq] at hin hout
  subst hin hout
  rcases m with ⟨a, i, o, it, t⟩
  cases i <;> cases o <;> cases it <;> cases t <;>
    simp [handleRest, interruptStep, transcriptionStep, turnCompleteStep,
      messageEvents_append, messageEvents_stopped] <;>
    split_ifs <;> simp [messageEvents]

theorem handleMessage_buffers_congr (now : ℚ) (dn sid : Nat)
    (decoded : Option ℚ) (st st' : EngineState) (m : InboundMsg)
    (hin : st.currentInputTranscription = st'.currentInputTranscription)
    (hout : st.currentOutputTranscription = st'.currentOutputTranscription) :
    messageEvents (handleMessage now dn sid decoded st m).2 =
      messageEvents (handleMessage now dn sid decoded st' m).2 ∧
    (handleMessage now dn sid decoded st m).1.currentInputTranscription =
      (handleMessage now dn sid decoded st' m).1.currentInputTranscription ∧
    (handleMessage now dn sid decoded st m).1.currentOutputTranscription =
      (handleMessage now dn sid decoded st' m).1.currentOutputTranscription
    := by
  cases ha : m.audioData with
  | none =>
      simp only [handleMessage, ha]
      exact handleRest_buffers_congr dn st st' m hin hout
  | some p =>
      cases decoded with
      | none => simp [handleMessage, ha, messageEvents, hin, hout]
      | some dur =>
          simp only [handleMessage, ha]
          have h := handleRest_buffers_congr dn
            ({ st with
                nextStartTime := max st.nextStartTime now + dur,
                audioSources := st.audioSources ++ [sid] })
            ({ st' with
                nextStartTime := max st'.nextStartTime now + dur,
                audioSources := st'.audioSources ++ [sid] })
            m hin hout
          simpa [messageEvents_scheduled_cons] using h

theorem runMessages_buffers_congr (l : List MsgInput) (st st' : EngineState)
    (hin : st.currentInputTranscription = st'.currentInputTranscription)
    (hout : st.currentOutputTranscription = st'.currentOutputTranscription) :
    messageEvents (runMessages st l).2 = messageEvents (runMessages st' l).2
    := by
  induction l generalizing st st' with
  | nil => rfl
  | cons i rest ih =>
      have h := handleMessage_buffers_congr i.now i.dateNow i.srcId i.decoded
        st st' i.msg hin hout
      simp only [runMessages, messageEvents_append]
      rw [h.1, ih _ _ h.2.1 h.2.2]

/-- C10: an inbound event carrying only the interruption signal clears the
active source set and resets `nextStartTime` to 0 but leaves both transcript
buffers exactly as they were; consequently the Messages emitted by any
subsequent sequence of events are the same as if the interruption had not
occurred. -/
theorem interruption_frame_effect (st : EngineState) (now : ℚ)
    (dn sid : Nat) (decoded : Option ℚ) :
    (handleMessage now dn sid decoded st interruptMsg).1 =
      { st with audioSources := [], nextStartTime := 0 } ∧
    ∀ l : List MsgInput,
      messageEvents
        (runMessages (handleMessage now dn sid decoded st interruptMsg).1
          l).2 =
      messageEvents (runMessages st l).2 := by
  have h1 : (handleMessage now dn sid decoded st interruptMsg).1 =
      { st with audioSources := [], nextStartTime := 0 } := by
    rcases st with ⟨ns, srcs, ib, ob⟩
    simp [handleMessage, interruptMsg, handleRest, interruptStep,
      transcriptionStep]
  refine ⟨h1, fun l => ?_⟩
  rw [h1]
  exact runMessages_buffers_congr l _ st rfl rfl

/-- The state flags (`isConnected`, `isConnecting`) and the nullable refs of
the hook that `connect` and `cleanup` manage; a `true` field means the ref
currently holds a resource (is non-null). -/
structure SessionState where
  isConnected : Bool
  isConnecting : Bool
  mediaStream : Bool
  scriptProcessor : Bool
  inputAnalyser : Bool
  outputAnalyser : Bool
  inputCtx : Bool
  outputCtx : Bool
  session : Bool
deriving DecidableEq, Repr

/-- Observable lifecycle effects: resource acquisitions and releases, the
channel-open attempt (`ai.live.connect`), the best-effort channel close, and
the collaborator hooks. -/
inductive LcEvent where
  | createdContexts
  | acquiredStream
  | channelOpenAttempt
  | errorReported
  | stoppedTracks
  | disconnectedProcessor
  | disconnectedInputAnalyser
  | disconnectedOutputAnalyser
  | closedInputCtx
  | closedOutputCtx
  | channelCloseAttempt
  | disconnectedHook
deriving DecidableEq, Repr

/-- `connect`: guarded by `if (isConnected || isConnecting) return;`. On the
path past the guard the code sets `isConnecting`, requires the API key
(missing key throws into the catch block: `setIsConnecting(false)` and
`onError`, with nothing acquired yet), creates the two audio contexts and
analysers, awaits `getUserMedia` (a rejection lands in the same catch block,
leaving the already-created contexts behind), and finally calls
`ai.live.connect` storing the session promise. `apiKeyPresent` and `mediaOk`
are the environment outcomes of those two fallible steps. -/
def connect (apiKeyPresent mediaOk : Bool) (st : SessionState) :
    SessionState × List LcEvent :=
  if st.isConnected || st.isConnecting then (st, [])
  else if !apiKeyPresent then
    ({ st with isConnecting := false }, [LcEvent.errorReported])
  else if !mediaOk then
    ({ st with
        isConnecting := false, inputCtx := true, outputCtx := true,
        inputAnalyser := true, outputAnalyser := true },
     [LcEvent.createdContexts, LcEvent.errorReported])
  else
    ({ st with
        isConnecting := true, inputCtx := true, outputCtx := true,
        inputAnalyser := true, outputAnalyser := true, mediaStream := true,
        session := true },
     [LcEvent.createdContexts, LcEvent.acquiredStream,
      LcEvent.channelOpenAttempt])

/-- `cleanup`: resets both flags, then releases each resource behind a
null-guard (`?.` optional chaining — a null ref releases nothing and cannot
throw), nulls every ref, attempts a best-effort channel close whose failure
is swallowed by `.catch(() => {})`, and calls the `onDisconnect` hook. The
function is total: no path throws. -/
def cleanup (st : SessionState) : SessionState × List LcEvent :=
  ({ isConnected := false, isConnecting := false, mediaStream := false,
     scriptProcessor := false, inputAnalyser := false,
     outputAnalyser := false, inputCtx := false, outputCtx := false,
     session := false },
   (if st.mediaStream then [LcEvent.stoppedTracks] else []) ++
   (if st.scriptProcessor then [LcEvent.disconnectedProcessor] else []) ++
   (if st.inputAnalyser then [LcEvent.disconnectedInputAnalyser] else []) ++
   (if st.outputAnalyser then [LcEvent.disconnectedOutputAnalyser] else []) ++
   (if st.inputCtx then [LcEvent.closedInputCtx] else []) ++
   (if st.outputCtx then [LcEvent.closedOutputCtx] else []) ++
   (if st.session then [LcEvent.channelCloseAttempt] else []) ++
   [LcEvent.disconnectedHook])

/-- `disconnect` just delegates to `cleanup`. -/
def disconnect (st : SessionState) : SessionState × List LcEvent := cleanup st

/-- The fully torn-down state: both flags false, every ref null. -/
def cleanedSessionState : SessionState :=
  { isConnected := false, isConnecting := false, mediaStream := false,
    scriptProcessor := false, inputAnalyser := false, outputAnalyser := false,
    inputCtx := false, outputCtx := false, session := false }

/-- C4: a `connect` call while the session is already Connecting or Active
returns at the `if (isConnected || isConnecting) return;` guard: the state is
unchanged and no event happens — in particular no second channel-open
attempt and no second device-stream acquisition. -/
theorem connect_noop_when_busy (apiKeyPresent mediaOk : Bool)
    (st : SessionState)
    (h : st.isConnected = true ∨ st.isConnecting = true) :
    connect apiKeyPresent mediaOk st = (st, []) ∧
    LcEvent.channelOpenAttempt ∉ (connect apiKeyPresent mediaOk st).2 ∧
    LcEvent.acquiredStream ∉ (connect apiKeyPresent mediaOk st).2 := by
  have hg : (st.isConnected || st.isConnecting) = true := by
    rcases h with h | h <;> simp [h]
  simp [connect, hg]

theorem connect_noop_when_busy_witness :
    ({ isConnected := true, isConnecting := false, mediaStream := true,
       scriptProcessor := true, inputAnalyser := true, outputAnalyser := true,
       inputCtx := true, outputCtx := true,
       session := true } : SessionState).isConnected = true ∧
    (connect true true
      { isConnected := true, isConnecting := false, mediaStream := true,
        scriptProcessor := true, inputAnalyser := true,
        outputAnalyser := true, inputCtx := true, outputCtx := true,
        session := true } =
      ({ isConnected := true, isConnecting := false, mediaStream := true,
         scriptProcessor := true, inputAnalyser := true,
         outputAnalyser := true, inputCtx := true, outputCtx := true,
         session := true }, []) ∧
     LcEvent.channelOpenAttempt ∉ (connect true true
      { isConnected := true, isConnecting := false, mediaStream := true,
        scriptProcessor := true, inputAnalyser := true,
        outputAnalyser := true, inputCtx := true, outputCtx := true,
        session := true }).2 ∧
     LcEvent.acquiredStream ∉ (connect true true
      { isConnected := true, isConnecting := false, mediaStream := true,
        scriptProcessor := true, inputAnalyser := true,
        outputAnalyser := true, inputCtx := true, outputCtx := true,
        session := true }).2) :=
  ⟨rfl,
   connect_noop_when_busy true true
     { isConnected := true, isConnecting := false, mediaStream := true,
       scriptProcessor := true, inputAnalyser := true, outputAnalyser := true,
       inputCtx := true, outputCtx := true, session := true }
     (Or.inl rfl)⟩

/-- C5: teardown is total (every branch of the embedding is a value — the
source guards each release with optional chaining and swallows the channel
close failure) and idempotent: any first call leaves every ref null and both
flags false, and a second call — e.g. `disconnect()` immediately followed by
the channel-close callback — releases nothing (it emits only the
`onDisconnect` hook call, no release event), for any starting state,
partially initialised ones included. -/
theorem cleanup_idempotent (st : SessionState) :
    (cleanup st).1 = cleanedSessionState ∧
    cleanup (cleanup st).1 = (cleanedSessionState, [LcEvent.disconnectedHook])
    ∧
    disconnect (disconnect st).1 =
      (cleanedSessionState, [LcEvent.disconnectedHook]) :=
  ⟨rfl, rfl, rfl⟩

/-- Modelled from the spec: the Transport Blob Encoder `createBlob` lives in
`src/utils/audioUtils.ts`, which the hook imports but which is not among the
available sources. Per §4.3 a normalized sample becomes a 16-bit signed PCM
sample clamped to the representable range [-32768, 32767]. -/
def clamp16 (v : ℤ) : ℤ := max (-32768) (min 32767 v)

/-- Modelled from the spec: one normalized floating-point sample in [-1, 1]
scaled by 2^15, rounded to the nearest integer, clamped to 16-bit range. -/
def encodeSample (s : ℚ) : ℤ := clamp16 ⌊s * 32768 + 1 / 2⌋

/-- Modelled from the spec: `createBlob` encodes every sample of the frame in
its original order; an empty input buffer yields an empty output, not an
error. -/
def createBlob (samples : List ℚ) : List ℤ := samples.map encodeSample

/-- Modelled from the spec: the reference PCM16 decoder maps a 16-bit value
back to a normalized sample by dividing by 2^15. -/
def decodeSample (v : ℤ) : ℚ := (v : ℚ) / 32768

/-- C8: the encoder is a pure function; the empty frame encodes to the empty
output, sample count and order are preserved (position `i` of the output is
the encoding of position `i` of the input), every produced sample lies in the
representable 16-bit range, and for inputs in [-1, 1] decoding with the
reference decoder reproduces the sample within 16-bit quantization error
(at most 2^-15). -/
theorem createBlob_roundtrip :
    createBlob [] = [] ∧
    (∀ l : List ℚ, (createBlob l).length = l.length) ∧
    (∀ (l : List ℚ) (i : Nat),
      (createBlob l)[i]? = (l[i]?).map encodeSample) ∧
    (∀ s : ℚ, -1 ≤ s → s ≤ 1 →
      -32768 ≤ encodeSample s ∧ encodeSample s ≤ 32767 ∧
      |decodeSample (encodeSample s) - s| ≤ 1 / 32768) := by
  refine ⟨rfl, fun l => by simp [createBlob],
    fun l i => by simp [createBlob], ?_⟩
  intro s h1 h2
  have hf1 : ((⌊s * 32768 + 1 / 2⌋ : ℤ) : ℚ) ≤ s * 32768 + 1 / 2 :=
    Int.floor_le _
  have hf2 : s * 32768 + 1 / 2 < (⌊s * 32768 + 1 / 2⌋ : ℤ) + 1 :=
    Int.lt_floor_add_one _
  have hge : (-32768 : ℤ) ≤ ⌊s * 32768 + 1 / 2⌋ := by
    apply Int.le_floor.mpr
    push_cast
    linarith
  rcases le_or_lt (⌊s * 32768 + 1 / 2⌋) 32767 with hle | hgt
  · have hv : encodeSample s = ⌊s * 32768 + 1 / 2⌋ := by
      unfold encodeSample clamp16
      rw [min_eq_right hle, max_eq_right hge]
    refine ⟨by rw [hv]; exact hge, by rw [hv]; exact hle, ?_⟩
    rw [hv]
    unfold decodeSample
    rw [abs_le]
    constructor <;> linarith
  · have h32 : ((32768 : ℤ) : ℚ) ≤ ((⌊s * 32768 + 1 / 2⌋ : ℤ) : ℚ) := by
      exact_mod_cast hgt
    have hv : encodeSample s = 32767 := by
      unfold encodeSample clamp16
      rw [min_eq_left (le_of_lt hgt)]
      norm_num
    refine ⟨by rw [hv]; norm_num, by rw [hv], ?_⟩
    rw [hv]
    unfold decodeSample
    rw [abs_le]
    push_cast at h32
    constructor <;> push_cast <;> linarith

theorem createBlob_roundtrip_witness :
    -1 ≤ (1 : ℚ) / 2 ∧ (1 : ℚ) / 2 ≤ 1 ∧
    (-32768 ≤ encodeSample (1 / 2) ∧ encodeSample (1 / 2) ≤ 32767 ∧
     |decodeSample (encodeSample (1 / 2)) - 1 / 2| ≤ 1 / 32768) :=
  ⟨by norm_num, by norm_num,
   createBlob_roundtrip.2.2.2 (1 / 2) (by norm_num) (by norm_num)⟩

end LiveSession
